import Mathlib

/-!
2D particle-filter localization: shallow embedding and verification.

The repository ships only the class declaration `src/src/particle_filter.h`
(the method bodies in `particle_filter.cpp` and the helpers in
`helper_functions.h` are not part of the source tree).  Every operation is
therefore modelled from the specification's own description of its behaviour
(sections 4.1-4.8 of the spec), keeping the header's data model and method
signatures.  C++ `double` values are modelled as real numbers, `int` ids as
integers, and `std::vector` as lists.  Randomness (Gaussian draws in `init`
and `prediction`, uniform draws in `resample`) is made explicit: each sampler
receives the underlying standard draws as an extra argument, so that a
Gaussian sample with mean m and deviation s is `m + s * z` for a standard
draw `z`, and a weighted-choice resampling draw is a uniform number in
`[0, total weight)`.
-/

/-- A single map landmark: `Map::single_landmark_s` from `helper_functions.h`
(declared in the header's `Map` parameter; the file itself is missing).
A fixed, known landmark with a unique id and map-frame position. -/
structure SingleLandmark where
  id : Int
  x : ℝ
  y : ℝ

/-- The `Map` class from the missing `helper_functions.h`: an ordered list of
ground-truth landmarks. -/
structure Map where
  landmark_list : List SingleLandmark

/-- The `LandmarkObs` struct from the missing `helper_functions.h`: an
observation or a predicted landmark projection, with an id (-1 / prior value
when not yet associated) and a 2D position in whichever frame it currently
represents. -/
structure LandmarkObs where
  id : Int
  x : ℝ
  y : ℝ

/-- The `Particle` struct of `particle_filter.h`: one pose hypothesis with a
weight and the diagnostic association trace. -/
structure Particle where
  id : Int
  x : ℝ
  y : ℝ
  theta : ℝ
  weight : ℝ
  associations : List Int
  sense_x : List ℝ
  sense_y : List ℝ

instance : Inhabited Particle :=
  ⟨⟨0, 0, 0, 0, 0, [], [], []⟩⟩

/-- The `ParticleFilter` class state: particle count fixed at construction,
the initialization flag, the cached weight vector and the particle set. -/
structure ParticleFilter where
  num_particles : ℕ
  is_initialized : Bool
  weights : List ℝ
  particles : List Particle

/-- Modelled from the spec: the Euclidean distance helper `dist` of the
missing `helper_functions.h`, used for range filtering and nearest-neighbor
association. -/
noncomputable def distance (x1 y1 x2 y2 : ℝ) : ℝ :=
  Real.sqrt ((x2 - x1) ^ 2 + (y2 - y1) ^ 2)

/-- The small epsilon below which `|yaw_rate|` is treated as straight-line
motion in the prediction step (spec section 4.2). -/
noncomputable def yawEpsilon : ℝ := 1 / 100000

/-- Modelled from the spec: the deterministic part of the motion model applied
by `ParticleFilter::prediction` (body missing; spec section 4.2).  Two cases:
straight-line motion when `|yaw_rate| < yawEpsilon`, otherwise the curved
(constant-turn-rate) closed form.  Returns the updated `(x, y, theta)`. -/
noncomputable def motionUpdate (x y theta delta_t velocity yaw_rate : ℝ) :
    ℝ × ℝ × ℝ :=
  if |yaw_rate| < yawEpsilon then
    (x + velocity * delta_t * Real.cos theta,
     y + velocity * delta_t * Real.sin theta,
     theta)
  else
    (x + velocity / yaw_rate *
        (Real.sin (theta + yaw_rate * delta_t) - Real.sin theta),
     y + velocity / yaw_rate *
        (Real.cos theta - Real.cos (theta + yaw_rate * delta_t)),
     theta + yaw_rate * delta_t)

/-- Modelled from the spec: one particle's update inside
`ParticleFilter::prediction` (body missing; spec section 4.2): the
deterministic motion model followed by additive Gaussian process noise with
standard deviations `std_pos`; `eps` is the triple of standard normal draws
for this particle and this call. -/
noncomputable def predictParticle (delta_t : ℝ) (std_pos : ℝ × ℝ × ℝ)
    (velocity yaw_rate : ℝ) (eps : ℝ × ℝ × ℝ) (p : Particle) : Particle :=
  let m := motionUpdate p.x p.y p.theta delta_t velocity yaw_rate
  { p with
    x := m.1 + std_pos.1 * eps.1
    y := m.2.1 + std_pos.2.1 * eps.2.1
    theta := m.2.2 + std_pos.2.2 * eps.2.2 }

/-- Modelled from the spec: `ParticleFilter::prediction` (body missing; spec
section 4.2).  Advances every particle independently through the motion model
plus per-particle process noise; `noise i` supplies the standard normal draws
for the particle at index `i`. -/
noncomputable def ParticleFilter.prediction (pf : ParticleFilter)
    (delta_t : ℝ) (std_pos : ℝ × ℝ × ℝ) (velocity yaw_rate : ℝ)
    (noise : ℕ → ℝ × ℝ × ℝ) : ParticleFilter :=
  { pf with
    particles := pf.particles.mapIdx fun i p =>
      predictParticle delta_t std_pos velocity yaw_rate (noise i) p }

/-- Modelled from the spec: `ParticleFilter::init` (body missing; spec
section 4.1).  Draws `num_particles` particles around the initial pose with
independent Gaussian noise (`noise i` are particle `i`'s standard draws, so a
zero standard deviation makes that dimension deterministic), assigns
sequential ids `0..N-1`, weight 1 and empty association traces, and sets
`is_initialized`. -/
noncomputable def ParticleFilter.init (pf : ParticleFilter) (x y theta : ℝ)
    (std : ℝ × ℝ × ℝ) (noise : ℕ → ℝ × ℝ × ℝ) : ParticleFilter :=
  { pf with
    is_initialized := true
    particles := (List.range pf.num_particles).map fun i =>
      { id := Int.ofNat i
        x := x + std.1 * (noise i).1
        y := y + std.2.1 * (noise i).2.1
        theta := theta + std.2.2 * (noise i).2.2
        weight := 1
        associations := []
        sense_x := []
        sense_y := [] } }

/-- Modelled from the spec: `ParticleFilter::transform` (body missing; spec
section 4.3).  Maps sensor-local observations into the map frame for the pose
`(x, y, theta)` by a 2D rotation then translation; ids pass through
unchanged. -/
noncomputable def ParticleFilter.transform (observations : List LandmarkObs)
    (x y theta : ℝ) : List LandmarkObs :=
  observations.map fun o =>
    { id := o.id
      x := x + o.x * Real.cos theta - o.y * Real.sin theta
      y := y + o.x * Real.sin theta + o.y * Real.cos theta }

/-- Modelled from the spec: `ParticleFilter::findLandmarksInRange` (body
missing; spec section 4.5).  Keeps the landmarks whose Euclidean distance
from `(x, y)` is at most `range`, converted to `LandmarkObs` with ids
preserved. -/
noncomputable def ParticleFilter.findLandmarksInRange (x y range : ℝ)
    (landmarks : List SingleLandmark) : List LandmarkObs :=
  (landmarks.filter fun lm => distance x y lm.x lm.y ≤ range).map fun lm =>
    { id := lm.id, x := lm.x, y := lm.y }

/-- Modelled from the spec: the nearest-neighbor scan inside
`ParticleFilter::dataAssociation` (body missing; spec section 4.4).  Folding
over the remaining candidates with a strict comparison keeps the first
landmark achieving the minimum distance to the observation `o`. -/
noncomputable def nearestLandmark (p : LandmarkObs) (ps : List LandmarkObs)
    (o : LandmarkObs) : LandmarkObs :=
  ps.foldl
    (fun best q =>
      if distance q.x q.y o.x o.y < distance best.x best.y o.x o.y then q
      else best)
    p

/-- Modelled from the spec: `ParticleFilter::dataAssociation` (body missing;
spec section 4.4).  With a non-empty `predicted` list, overwrites each
observation's id with its nearest predicted landmark's id; with an empty
`predicted` list the observations are returned with their prior ids. -/
noncomputable def ParticleFilter.dataAssociation
    (predicted observations : List LandmarkObs) : List LandmarkObs :=
  match predicted with
  | [] => observations
  | p :: ps =>
    observations.map fun o => { o with id := (nearestLandmark p ps o).id }

/-- Modelled from the spec:
`ParticleFilter::calculateMultivariateGaussianProbability` (body missing;
spec section 4.7).  The bivariate Gaussian density with independent axes,
mean at the prediction, evaluated at the observation. -/
noncomputable def ParticleFilter.calculateMultivariateGaussianProbability
    (prediction observation : LandmarkObs) (std_landmark : ℝ × ℝ) : ℝ :=
  1 / (2 * Real.pi * std_landmark.1 * std_landmark.2) *
    Real.exp (-((observation.x - prediction.x) ^ 2 /
          (2 * std_landmark.1 ^ 2) +
        (observation.y - prediction.y) ^ 2 / (2 * std_landmark.2 ^ 2)))

/-- Modelled from the spec: the per-particle body of
`ParticleFilter::updateWeights` (body missing; spec section 4.6): find the
in-range landmarks, transform the raw observations into the map frame,
associate them, store the diagnostic trace, and set the weight to the product
of the pairwise Gaussian probabilities — or to 0 when there is no in-range
landmark candidate. -/
noncomputable def updateParticle (sensor_range : ℝ) (std_landmark : ℝ × ℝ)
    (observations : List LandmarkObs) (landmarks : List SingleLandmark)
    (p : Particle) : Particle :=
  let inRange := ParticleFilter.findLandmarksInRange p.x p.y sensor_range
    landmarks
  let transformed := ParticleFilter.transform observations p.x p.y p.theta
  let associated := ParticleFilter.dataAssociation inRange transformed
  { p with
    weight :=
      match inRange with
      | [] => 0
      | q :: qs =>
        (transformed.map fun o =>
          ParticleFilter.calculateMultivariateGaussianProbability
            (nearestLandmark q qs o) o std_landmark).prod
    associations := associated.map LandmarkObs.id
    sense_x := associated.map LandmarkObs.x
    sense_y := associated.map LandmarkObs.y }

/-- Modelled from the spec: `ParticleFilter::updateWeights` (body missing;
spec section 4.6).  Reweights every particle and refreshes the cached weight
vector; the observation list and the map are read-only inputs. -/
noncomputable def ParticleFilter.updateWeights (pf : ParticleFilter)
    (sensor_range : ℝ) (std_landmark : ℝ × ℝ)
    (observations : List LandmarkObs) (map_landmarks : Map) : ParticleFilter :=
  let ps := pf.particles.map
    (updateParticle sensor_range std_landmark observations
      map_landmarks.landmark_list)
  { pf with particles := ps, weights := ps.map Particle.weight }

/-- Modelled from the spec: the weighted-choice selection inside
`ParticleFilter::resample` (body missing; spec section 4.8).  For a draw
`r` uniform in `[0, total weight)`, returns the first index whose cumulative
weight interval contains `r`, so that index `i` is selected with probability
`weights[i] / total`. -/
noncomputable def selectIndex : List ℝ → ℝ → ℕ
  | [], _ => 0
  | w :: ws, r => if r < w then 0 else selectIndex ws (r - w) + 1

/-- Modelled from the spec: `ParticleFilter::resample` (body missing; spec
section 4.8).  Draws `num_particles` particles with replacement, probability
proportional to weight (`draws i` is the uniform draw in `[0, total)` for the
i-th slot), copying each source particle's fields but assigning the fresh
sequential id `i`. -/
noncomputable def ParticleFilter.resample (pf : ParticleFilter)
    (draws : ℕ → ℝ) : ParticleFilter :=
  { pf with
    particles := (List.range pf.num_particles).map fun i =>
      { pf.particles.getD (selectIndex pf.weights (draws i)) default with
          id := Int.ofNat i } }

/-- The association that `dataAssociation` is specified to produce for one
observation `o` from a non-empty candidate list: some candidate at position
`k` carries the assigned id, is at minimal distance from `o`, and every
candidate before position `k` is strictly farther (spec section 4.4's
tie-break policy). -/
def IsFirstNearest (predicted : List LandmarkObs) (o : LandmarkObs)
    (assigned : Int) : Prop :=
  ∃ k lm, predicted.get? k = some lm ∧ lm.id = assigned ∧
    (∀ lm', lm' ∈ predicted →
      distance lm.x lm.y o.x o.y ≤ distance lm'.x lm'.y o.x o.y) ∧
    ∀ j lm', j < k → predicted.get? j = some lm' →
      distance lm.x lm.y o.x o.y < distance lm'.x lm'.y o.x o.y

/-! ## Claim theorems -/

/-- Claim C6: `transform` returns a new sequence of the same length and order
in which each entry is the input observation rotated by `theta` and translated
by `(x, y)` (map_x = x + obs_x·cosθ − obs_y·sinθ, map_y = y + obs_x·sinθ +
obs_y·cosθ), with ids passed through unchanged.  Purity and non-mutation of
the caller's list are inherent to the functional embedding. -/
theorem transform_spec (observations : List LandmarkObs) (x y theta : ℝ)
    (i : ℕ) (o : LandmarkObs) (ho : observations.get? i = some o) :
    (ParticleFilter.transform observations x y theta).length =
      observations.length ∧
    (ParticleFilter.transform observations x y theta).get? i =
      some ⟨o.id, x + o.x * Real.cos theta - o.y * Real.sin theta,
            y + o.x * Real.sin theta + o.y * Real.cos theta⟩ := by
  refine ⟨by simp [ParticleFilter.transform], ?_⟩
  rw [List.get?_eq_getElem?] at ho ⊢
  simp [ParticleFilter.transform, List.getElem?_map, ho]

/-- Witness for C6 at a concrete input. -/
theorem transform_spec_witness :
    (ParticleFilter.transform [⟨-1, 2, 3⟩] 10 20 0).length = 1 ∧
    (ParticleFilter.transform [⟨-1, 2, 3⟩] 10 20 0).get? 0 =
      some ⟨-1, 10 + 2 * Real.cos 0 - 3 * Real.sin 0,
            20 + 2 * Real.sin 0 + 3 * Real.cos 0⟩ :=
  transform_spec [⟨-1, 2, 3⟩] 10 20 0 0 ⟨-1, 2, 3⟩ rfl

/-- Claim C7: `findLandmarksInRange` returns exactly the landmarks whose
Euclidean distance from `(x, y)` is at most `range`, converted to
`LandmarkObs` with their ids preserved: membership in the result is
equivalent to coming from an in-range landmark of the input list. -/
theorem findLandmarksInRange_spec (x y range : ℝ)
    (landmarks : List SingleLandmark) (o : LandmarkObs) :
    o ∈ ParticleFilter.findLandmarksInRange x y range landmarks ↔
      ∃ lm, lm ∈ landmarks ∧ distance x y lm.x lm.y ≤ range ∧
        o = ⟨lm.id, lm.x, lm.y⟩ := by
  simp only [ParticleFilter.findLandmarksInRange, List.mem_map,
    List.mem_filter, decide_eq_true_eq]
  constructor
  · rintro ⟨lm, ⟨hmem, hle⟩, rfl⟩
    exact ⟨lm, hmem, hle, rfl⟩
  · rintro ⟨lm, hmem, hle, rfl⟩
    exact ⟨lm, ⟨hmem, hle⟩, rfl⟩

/-- Witness for C7 at a concrete input: a landmark at distance 3 is kept by a
range-5 filter around the origin. -/
theorem findLandmarksInRange_spec_witness :
    (⟨7, 3, 0⟩ : LandmarkObs) ∈
      ParticleFilter.findLandmarksInRange 0 0 5 [⟨7, 3, 0⟩] := by
  refine (findLandmarksInRange_spec 0 0 5 [⟨7, 3, 0⟩] ⟨7, 3, 0⟩).mpr
    ⟨⟨7, 3, 0⟩, by simp, ?_, rfl⟩
  have h9 : distance 0 0 3 0 = 3 := by
    rw [distance, show ((3 : ℝ) - 0) ^ 2 + ((0 : ℝ) - 0) ^ 2 = 3 ^ 2 by norm_num,
      Real.sqrt_sq (by norm_num : (0 : ℝ) ≤ 3)]
  rw [h9]; norm_num

/-- Claim C3: `calculateMultivariateGaussianProbability` computes exactly the
independent-axes bivariate Gaussian density
1/(2π·σx·σy)·exp(−(dx²/(2σx²) + dy²/(2σy²))) with dx = obs_x − pred_x and
dy = obs_y − pred_y; for σx, σy > 0 it is bounded by its peak value
1/(2π·σx·σy), attains it at dx = dy = 0, and is symmetric under negating dx
or dy. -/
theorem calculateMultivariateGaussianProbability_spec
    (prediction observation : LandmarkObs) (sx sy : ℝ)
    (hx : 0 < sx) (hy : 0 < sy) :
    ParticleFilter.calculateMultivariateGaussianProbability prediction
        observation (sx, sy) =
      1 / (2 * Real.pi * sx * sy) *
        Real.exp (-((observation.x - prediction.x) ^ 2 / (2 * sx ^ 2) +
          (observation.y - prediction.y) ^ 2 / (2 * sy ^ 2))) ∧
    ParticleFilter.calculateMultivariateGaussianProbability prediction
        observation (sx, sy) ≤ 1 / (2 * Real.pi * sx * sy) ∧
    ParticleFilter.calculateMultivariateGaussianProbability prediction
        ⟨observation.id, prediction.x, prediction.y⟩ (sx, sy) =
      1 / (2 * Real.pi * sx * sy) ∧
    ParticleFilter.calculateMultivariateGaussianProbability prediction
        ⟨observation.id, 2 * prediction.x - observation.x, observation.y⟩
        (sx, sy) =
      ParticleFilter.calculateMultivariateGaussianProbability prediction
        observation (sx, sy) ∧
    ParticleFilter.calculateMultivariateGaussianProbability prediction
        ⟨observation.id, observation.x, 2 * prediction.y - observation.y⟩
        (sx, sy) =
      ParticleFilter.calculateMultivariateGaussianProbability prediction
        observation (sx, sy) := by
  have hc : (0 : ℝ) ≤ 1 / (2 * Real.pi * sx * sy) := by positivity
  refine ⟨rfl, ?_, ?_, ?_, ?_⟩
  · rw [ParticleFilter.calculateMultivariateGaussianProbability]
    have hexp : Real.exp (-((observation.x - prediction.x) ^ 2 /
        (2 * sx ^ 2) + (observation.y - prediction.y) ^ 2 /
        (2 * sy ^ 2))) ≤ 1 := by
      rw [Real.exp_le_one_iff]
      have : (0 : ℝ) ≤ (observation.x - prediction.x) ^ 2 / (2 * sx ^ 2) +
          (observation.y - prediction.y) ^ 2 / (2 * sy ^ 2) := by positivity
      linarith
    exact mul_le_of_le_one_right hc hexp
  · simp [ParticleFilter.calculateMultivariateGaussianProbability]
  · simp only [ParticleFilter.calculateMultivariateGaussianProbability]
    ring_nf
  · simp only [ParticleFilter.calculateMultivariateGaussianProbability]
    ring_nf

/-- Witness for C3 at a concrete input: with unit deviations the density at
zero residual is the peak value 1/(2π). -/
theorem calculateMultivariateGaussianProbability_spec_witness :
    ParticleFilter.calculateMultivariateGaussianProbability ⟨1, 0, 0⟩
      ⟨-1, 0, 0⟩ (1, 1) = 1 / (2 * Real.pi * 1 * 1) :=
  (calculateMultivariateGaussianProbability_spec ⟨1, 0, 0⟩ ⟨-1, 0, 0⟩ 1 1
    one_pos one_pos).2.2.1

/-- Claim C8: `init` called with standard deviations (0, 0, 0) produces a
population in which every particle's state is exactly (x, y, theta) and its
weight exactly 1, with sequential ids 0..N-1, and sets `is_initialized`. -/
theorem init_spec (pf : ParticleFilter) (x y theta : ℝ)
    (noise : ℕ → ℝ × ℝ × ℝ) :
    (pf.init x y theta (0, 0, 0) noise).is_initialized = true ∧
    (pf.init x y theta (0, 0, 0) noise).particles.length = pf.num_particles ∧
    ∀ i, i < pf.num_particles →
      (pf.init x y theta (0, 0, 0) noise).particles.get? i =
        some ⟨Int.ofNat i, x, y, theta, 1, [], [], []⟩ := by
  refine ⟨rfl, by simp [ParticleFilter.init], ?_⟩
  intro i hi
  rw [List.get?_eq_getElem?]
  simp [ParticleFilter.init, List.getElem?_map, List.getElem?_range hi]

/-- Witness for C8 at a concrete input: a two-particle filter initialized at
pose (1, 2, 3) with zero deviations, checked at index 1. -/
theorem init_spec_witness :
    ((⟨2, false, [], []⟩ : ParticleFilter).init 1 2 3 (0, 0, 0)
        (fun _ => (5, 6, 7))).is_initialized = true ∧
    ((⟨2, false, [], []⟩ : ParticleFilter).init 1 2 3 (0, 0, 0)
        (fun _ => (5, 6, 7))).particles.length = 2 ∧
    ((⟨2, false, [], []⟩ : ParticleFilter).init 1 2 3 (0, 0, 0)
        (fun _ => (5, 6, 7))).particles.get? 1 =
      some ⟨Int.ofNat 1, 1, 2, 3, 1, [], [], []⟩ := by
  have h := init_spec (⟨2, false, [], []⟩ : ParticleFilter) 1 2 3
    (fun _ => (5, 6, 7))
  exact ⟨h.1, h.2.1, h.2.2 1 (by norm_num)⟩

/-- Claim C9: after `updateWeights` every particle's three parallel trace
vectors have equal lengths, and immediately after `init` all three are
empty for every particle. -/
theorem associations_invariant (pf : ParticleFilter) (sensor_range : ℝ)
    (std_landmark : ℝ × ℝ) (observations : List LandmarkObs) (m : Map)
    (x y theta : ℝ) (std : ℝ × ℝ × ℝ) (noise : ℕ → ℝ × ℝ × ℝ) :
    (∀ p, p ∈ (pf.updateWeights sensor_range std_landmark observations
        m).particles →
      p.associations.length = p.sense_x.length ∧
      p.sense_x.length = p.sense_y.length) ∧
    (∀ p, p ∈ (pf.init x y theta std noise).particles →
      p.associations = [] ∧ p.sense_x = [] ∧ p.sense_y = []) := by
  constructor
  · intro p hp
    simp only [ParticleFilter.updateWeights, List.mem_map] at hp
    obtain ⟨q, -, rfl⟩ := hp
    simp [updateParticle]
  · intro p hp
    simp only [ParticleFilter.init, List.mem_map] at hp
    obtain ⟨i, -, rfl⟩ := hp
    exact ⟨rfl, rfl, rfl⟩

/-- Witness for C9 at a concrete input: the single particle produced by a
weighting pass over no observations and no landmarks, and the single particle
produced by `init`. -/
theorem associations_invariant_witness :
    ((⟨0, 0, 0, 0, 0, [], [], []⟩ : Particle).associations.length =
        (⟨0, 0, 0, 0, 0, [], [], []⟩ : Particle).sense_x.length ∧
      (⟨0, 0, 0, 0, 0, [], [], []⟩ : Particle).sense_x.length =
        (⟨0, 0, 0, 0, 0, [], [], []⟩ : Particle).sense_y.length) ∧
    ((⟨0, 1, 2, 3, 1, [], [], []⟩ : Particle).associations = [] ∧
      (⟨0, 1, 2, 3, 1, [], [], []⟩ : Particle).sense_x = [] ∧
      (⟨0, 1, 2, 3, 1, [], [], []⟩ : Particle).sense_y = []) := by
  have h := associations_invariant
    ⟨1, true, [], [⟨0, 0, 0, 0, 1, [], [], []⟩]⟩ 5 (1, 1) [] ⟨[]⟩
    1 2 3 (0, 0, 0) (fun _ => (0, 0, 0))
  refine ⟨h.1 ⟨0, 0, 0, 0, 0, [], [], []⟩ ?_, h.2 ⟨0, 1, 2, 3, 1, [], [], []⟩ ?_⟩
  · exact List.mem_singleton.mpr rfl
  · simp only [ParticleFilter.init, List.mem_map, List.mem_range]
    exact ⟨0, by norm_num, by norm_num⟩

/-- Claim C10: `updateWeights` confines its side effects to the Estimator's
own particle population and cached weight vector: the particle count and the
initialization flag are unchanged, the new population is a per-particle map
over the old one, and the weight cache mirrors the new particles.  The
caller's observation list and map are `const` inputs; in this functional
embedding they are values and cannot be mutated. -/
theorem updateWeights_frame (pf : ParticleFilter) (sensor_range : ℝ)
    (std_landmark : ℝ × ℝ) (observations : List LandmarkObs) (m : Map) :
    (pf.updateWeights sensor_range std_landmark observations
        m).num_particles = pf.num_particles ∧
    (pf.updateWeights sensor_range std_landmark observations
        m).is_initialized = pf.is_initialized ∧
    (pf.updateWeights sensor_range std_landmark observations m).particles =
      pf.particles.map
        (updateParticle sensor_range std_landmark observations
          m.landmark_list) ∧
    (pf.updateWeights sensor_range std_landmark observations m).weights =
      (pf.updateWeights sensor_range std_landmark observations
        m).particles.map Particle.weight :=
  ⟨rfl, rfl, rfl, rfl⟩

/-- Claim C1: for every particle, the update applied by `prediction` is the
deterministic two-case motion model plus the additive process noise: the new
state is `motionUpdate` of the old state plus `std_pos`-scaled noise, and
`motionUpdate` follows the straight-line formulas when `|yaw_rate|` is below
the epsilon (theta unchanged) and the curved closed form otherwise. -/
theorem prediction_deterministic (pf : ParticleFilter) (delta_t : ℝ)
    (std_pos : ℝ × ℝ × ℝ) (velocity yaw_rate : ℝ) (noise : ℕ → ℝ × ℝ × ℝ)
    (i : ℕ) (p : Particle) (hp : pf.particles.get? i = some p) :
    (pf.prediction delta_t std_pos velocity yaw_rate noise).particles.get? i =
      some { p with
        x := (motionUpdate p.x p.y p.theta delta_t velocity yaw_rate).1 +
          std_pos.1 * (noise i).1
        y := (motionUpdate p.x p.y p.theta delta_t velocity yaw_rate).2.1 +
          std_pos.2.1 * (noise i).2.1
        theta := (motionUpdate p.x p.y p.theta delta_t velocity
            yaw_rate).2.2 + std_pos.2.2 * (noise i).2.2 } ∧
    (|yaw_rate| < yawEpsilon →
      motionUpdate p.x p.y p.theta delta_t velocity yaw_rate =
        (p.x + velocity * delta_t * Real.cos p.theta,
         p.y + velocity * delta_t * Real.sin p.theta, p.theta)) ∧
    (¬|yaw_rate| < yawEpsilon →
      motionUpdate p.x p.y p.theta delta_t velocity yaw_rate =
        (p.x + velocity / yaw_rate *
            (Real.sin (p.theta + yaw_rate * delta_t) - Real.sin p.theta),
         p.y + velocity / yaw_rate *
            (Real.cos p.theta - Real.cos (p.theta + yaw_rate * delta_t)),
         p.theta + yaw_rate * delta_t)) := by
  refine ⟨?_, fun h => by rw [motionUpdate, if_pos h],
    fun h => by rw [motionUpdate, if_neg h]⟩
  obtain ⟨h, rfl⟩ := List.get?_eq_some.mp hp
  have hl : i < (pf.prediction delta_t std_pos velocity yaw_rate
      noise).particles.length := by
    simpa [ParticleFilter.prediction, List.length_mapIdx] using h
  rw [List.get?_eq_get hl]
  show some ((pf.particles.mapIdx fun j q =>
      predictParticle delta_t std_pos velocity yaw_rate (noise j) q).get
    ⟨i, hl⟩) = _
  rw [List.get_mapIdx pf.particles _ i h]
  rfl

/-- Witness for C1 at a concrete input: one particle at (1, 2, 3), unit time
step, velocity 2, zero yaw rate (the straight-line branch), zero noise. -/
theorem prediction_deterministic_witness :
    ((⟨1, true, [1], [⟨0, 1, 2, 3, 1, [], [], []⟩]⟩ : ParticleFilter).prediction
        1 (0, 0, 0) 2 0 (fun _ => (0, 0, 0))).particles.get? 0 =
      some { (⟨0, 1, 2, 3, 1, [], [], []⟩ : Particle) with
        x := (motionUpdate 1 2 3 1 2 0).1 + 0 * 0
        y := (motionUpdate 1 2 3 1 2 0).2.1 + 0 * 0
        theta := (motionUpdate 1 2 3 1 2 0).2.2 + 0 * 0 } ∧
    motionUpdate 1 2 3 1 2 0 =
      (1 + 2 * 1 * Real.cos 3, 2 + 2 * 1 * Real.sin 3, 3) := by
  have h := prediction_deterministic
    ⟨1, true, [1], [⟨0, 1, 2, 3, 1, [], [], []⟩]⟩ 1 (0, 0, 0) 2 0
    (fun _ => (0, 0, 0)) 0 ⟨0, 1, 2, 3, 1, [], [], []⟩ rfl
  have habs : |(0 : ℝ)| < yawEpsilon := by
    rw [yawEpsilon]; norm_num
  exact ⟨h.1, h.2.1 habs⟩

/-- A left fold that replaces the running best only on a strictly smaller
score returns an element of the list that attains the minimum score, and
every element strictly before it scores strictly higher (so it is the first
minimizer in iteration order). -/
theorem foldl_min_first {α : Type} (f : α → ℝ) :
    ∀ (ps : List α) (p : α),
      ∃ k, (p :: ps).get? k =
          some (ps.foldl (fun best r => if f r < f best then r else best) p) ∧
        (∀ a, a ∈ p :: ps →
          f (ps.foldl (fun best r => if f r < f best then r else best) p) ≤
            f a) ∧
        ∀ j a, j < k → (p :: ps).get? j = some a →
          f (ps.foldl (fun best r => if f r < f best then r else best) p) <
            f a := by
  intro ps
  induction ps with
  | nil =>
    intro p
    refine ⟨0, rfl, ?_, ?_⟩
    · intro a ha
      rcases List.mem_singleton.mp ha with rfl
      exact le_refl _
    · intro j a hj _
      exact absurd hj (Nat.not_lt_zero j)
  | cons q qs ih =>
    intro p
    by_cases hqp : f q < f p
    · have hfold : (q :: qs).foldl
          (fun best r => if f r < f best then r else best) p =
          qs.foldl (fun best r => if f r < f best then r else best) q := by
        show qs.foldl _ (if f q < f p then q else p) = _
        rw [if_pos hqp]
      obtain ⟨k, hk, hmin, hfirst⟩ := ih q
      refine ⟨k + 1, ?_, ?_, ?_⟩
      · rw [hfold, List.get?_cons_succ]
        exact hk
      · intro a ha
        rw [hfold]
        rcases List.mem_cons.mp ha with rfl | ha'
        · exact le_trans (hmin q (List.mem_cons_self q qs)) (le_of_lt hqp)
        · exact hmin a ha'
      · intro j a hj hja
        rw [hfold]
        cases j with
        | zero =>
          rw [List.get?_cons_zero] at hja
          obtain rfl := Option.some.inj hja
          exact lt_of_le_of_lt (hmin q (List.mem_cons_self q qs)) hqp
        | succ j =>
          rw [List.get?_cons_succ] at hja
          exact hfirst j a (Nat.lt_of_succ_lt_succ hj) hja
    · have hfold : (q :: qs).foldl
          (fun best r => if f r < f best then r else best) p =
          qs.foldl (fun best r => if f r < f best then r else best) p := by
        show qs.foldl _ (if f q < f p then q else p) = _
        rw [if_neg hqp]
      obtain ⟨k, hk, hmin, hfirst⟩ := ih p
      cases k with
      | zero =>
        rw [List.get?_cons_zero] at hk
        have hn := Option.some.inj hk
        refine ⟨0, ?_, ?_, ?_⟩
        · rw [List.get?_cons_zero, hfold, ← hn]
        · intro a ha
          rw [hfold]
          rcases List.mem_cons.mp ha with rfl | ha'
          · exact hmin a (List.mem_cons_self a qs)
          · rcases List.mem_cons.mp ha' with rfl | ha''
            · rw [← hn]
              exact le_of_not_lt hqp
            · exact hmin a (List.mem_cons_of_mem p ha'')
        · intro j a hj _
          exact absurd hj (Nat.not_lt_zero j)
      | succ k =>
        rw [List.get?_cons_succ] at hk
        refine ⟨k + 2, ?_, ?_, ?_⟩
        · rw [hfold]
          show (p :: q :: qs).get? (k + 2) = _
          rw [show k + 2 = (k + 1) + 1 by omega, List.get?_cons_succ,
            List.get?_cons_succ]
          exact hk
        · intro a ha
          rw [hfold]
          rcases List.mem_cons.mp ha with rfl | ha'
          · exact hmin a (List.mem_cons_self a qs)
          · rcases List.mem_cons.mp ha' with rfl | ha''
            · have h1 : f (qs.foldl
                  (fun best r => if f r < f best then r else best) p) < f p :=
                hfirst 0 p (Nat.succ_pos k) rfl
              exact le_of_lt (lt_of_lt_of_le h1 (le_of_not_lt hqp))
            · exact hmin a (List.mem_cons_of_mem p ha'')
        · intro j a hj hja
          rw [hfold]
          cases j with
          | zero =>
            rw [List.get?_cons_zero] at hja
            obtain rfl := Option.some.inj hja
            exact hfirst 0 p (Nat.succ_pos k) rfl
          | succ j' =>
            rw [List.get?_cons_succ] at hja
            cases j' with
            | zero =>
              rw [List.get?_cons_zero] at hja
              obtain rfl := Option.some.inj hja
              have h1 : f (qs.foldl
                  (fun best r => if f r < f best then r else best) p) < f p :=
                hfirst 0 p (Nat.succ_pos k) rfl
              exact lt_of_lt_of_le h1 (le_of_not_lt hqp)
            | succ j'' =>
              rw [List.get?_cons_succ] at hja
              refine hfirst (j'' + 1) a ?_ ?_
              · omega
              · rw [List.get?_cons_succ]
                exact hja

/-- Claim C4: with a non-empty `predicted` list, `dataAssociation` keeps each
observation's position and overwrites its id with the id of the first
landmark in `predicted`'s iteration order achieving the minimum Euclidean
distance to the observation (so no landmark in `predicted` is strictly
closer); with an empty `predicted` list the observation is returned with its
prior id.  The output has one entry per input observation. -/
theorem dataAssociation_spec (predicted observations : List LandmarkObs)
    (i : ℕ) (o o' : LandmarkObs)
    (ho : observations.get? i = some o)
    (ho' : (ParticleFilter.dataAssociation predicted observations).get? i =
      some o') :
    (ParticleFilter.dataAssociation predicted observations).length =
      observations.length ∧
    (predicted = [] → o' = o) ∧
    (predicted ≠ [] → o'.x = o.x ∧ o'.y = o.y ∧
      IsFirstNearest predicted o o'.id) := by
  cases predicted with
  | nil =>
    refine ⟨rfl, fun _ => ?_, fun h => absurd rfl h⟩
    simp only [ParticleFilter.dataAssociation] at ho'
    injection ho.symm.trans ho' with h
    exact h.symm
  | cons p ps =>
    simp only [ParticleFilter.dataAssociation] at ho' ⊢
    rw [List.get?_eq_getElem?] at ho ho'
    rw [List.getElem?_map, ho] at ho'
    obtain rfl := Option.some.inj ho'
    refine ⟨by simp, fun h => absurd h (by simp), fun _ => ⟨rfl, rfl, ?_⟩⟩
    obtain ⟨k, hk, hmin, hfirst⟩ :=
      foldl_min_first (fun lm => distance lm.x lm.y o.x o.y) ps p
    exact ⟨k, nearestLandmark p ps o, hk, rfl, hmin, hfirst⟩

/-- Witness for C4 at a concrete input: of the two candidates at distances 2
and 1 from the observation, the association picks the closer one (id 2), and
the output keeps one entry. -/
theorem dataAssociation_spec_witness :
    (ParticleFilter.dataAssociation [⟨1, 0, 0⟩, ⟨2, 3, 0⟩]
      [⟨-1, 2, 0⟩]).length = 1 ∧
    IsFirstNearest [⟨1, 0, 0⟩, ⟨2, 3, 0⟩] ⟨-1, 2, 0⟩ 2 := by
  have h1 : distance 3 0 2 0 = 1 := by
    rw [distance, show ((2 : ℝ) - 3) ^ 2 + ((0 : ℝ) - 0) ^ 2 = 1 by norm_num,
      Real.sqrt_one]
  have h2 : distance 0 0 2 0 = 2 := by
    rw [distance, show ((2 : ℝ) - 0) ^ 2 + ((0 : ℝ) - 0) ^ 2 = 2 ^ 2 by
      norm_num, Real.sqrt_sq (by norm_num : (0 : ℝ) ≤ 2)]
  have hlt : distance (3 : ℝ) 0 2 0 < distance 0 0 2 0 := by
    rw [h1, h2]; norm_num
  have hnear : nearestLandmark ⟨1, 0, 0⟩ [⟨2, 3, 0⟩] ⟨-1, 2, 0⟩ =
      ⟨2, 3, 0⟩ := by
    show (if distance (3 : ℝ) 0 2 0 < distance 0 0 2 0 then
        (⟨2, 3, 0⟩ : LandmarkObs) else ⟨1, 0, 0⟩) = ⟨2, 3, 0⟩
    rw [if_pos hlt]
  have ho' : (ParticleFilter.dataAssociation [⟨1, 0, 0⟩, ⟨2, 3, 0⟩]
      [⟨-1, 2, 0⟩]).get? 0 = some ⟨2, 2, 0⟩ := by
    simp only [ParticleFilter.dataAssociation, List.map_cons, List.map_nil,
      List.get?_cons_zero, hnear]
  have h := dataAssociation_spec [⟨1, 0, 0⟩, ⟨2, 3, 0⟩] [⟨-1, 2, 0⟩] 0
    ⟨-1, 2, 0⟩ ⟨2, 2, 0⟩ rfl ho'
  exact ⟨h.1, (h.2.2 (by simp)).2.2⟩

/-- The weighted-choice selector only ever lands on an index carrying a
strictly positive weight, provided the weights are non-negative and the draw
lies in `[0, total)`. -/
theorem selectIndex_pos_weight :
    ∀ (ws : List ℝ) (r : ℝ), (∀ w, w ∈ ws → 0 ≤ w) → 0 ≤ r → r < ws.sum →
      ∃ w, ws.get? (selectIndex ws r) = some w ∧ 0 < w := by
  intro ws
  induction ws with
  | nil =>
    intro r _ hr hlt
    rw [List.sum_nil] at hlt
    exact absurd hlt (not_lt.mpr hr)
  | cons w ws ih =>
    intro r hnn hr hlt
    by_cases hrw : r < w
    · refine ⟨w, ?_, lt_of_le_of_lt hr hrw⟩
      show (w :: ws).get?
        (if r < w then 0 else selectIndex ws (r - w) + 1) = some w
      rw [if_pos hrw]
      rfl
    · have hw : 0 ≤ w := hnn w (List.mem_cons_self w ws)
      have h1 : 0 ≤ r - w := by
        have := le_of_not_lt hrw
        linarith
      have h2 : r - w < ws.sum := by
        rw [List.sum_cons] at hlt
        linarith
      obtain ⟨v, hv, hvpos⟩ :=
        ih (r - w) (fun u hu => hnn u (List.mem_cons_of_mem w hu)) h1 h2
      refine ⟨v, ?_, hvpos⟩
      show (w :: ws).get?
        (if r < w then 0 else selectIndex ws (r - w) + 1) = some v
      rw [if_neg hrw, List.get?_cons_succ]
      exact hv

/-- Claim C5: `resample` produces a population of exactly `num_particles`
particles; the particle in slot `i` is its source particle (all fields
copied) with the fresh sequential id `i`; and whenever the weights are
non-negative and the draw for slot `i` lies in `[0, total)` — which requires
some particle to have positive weight — the selected source is never an index
carrying weight 0. -/
theorem resample_spec (pf : ParticleFilter) (draws : ℕ → ℝ) :
    (pf.resample draws).particles.length = pf.num_particles ∧
    (∀ i, i < pf.num_particles →
      (pf.resample draws).particles.get? i =
        some { pf.particles.getD (selectIndex pf.weights (draws i)) default
          with id := Int.ofNat i }) ∧
    ∀ i j, (∀ w, w ∈ pf.weights → 0 ≤ w) → 0 ≤ draws i →
      draws i < pf.weights.sum → pf.weights.get? j = some 0 →
      selectIndex pf.weights (draws i) ≠ j := by
  refine ⟨by simp [ParticleFilter.resample], ?_, ?_⟩
  · intro i hi
    rw [List.get?_eq_getElem?]
    simp [ParticleFilter.resample, List.getElem?_map, List.getElem?_range hi]
  · intro i j hnn h0 hsum hj hsel
    obtain ⟨w, hw, hwpos⟩ :=
      selectIndex_pos_weight pf.weights (draws i) hnn h0 hsum
    rw [hsel, hj] at hw
    obtain rfl := Option.some.inj hw
    exact lt_irrefl 0 hwpos

/-- Witness for C5 at a concrete input: two particles with weight cache
[0, 1]; a draw of 0 selects the positive-weight particle (index 1), slot 0 of
the new generation is that particle with fresh id 0, and the zero-weight
index 0 is never selected. -/
theorem resample_spec_witness :
    ((⟨2, true, [0, 1], [⟨10, 1, 1, 1, 0, [], [], []⟩,
        ⟨11, 2, 2, 2, 1, [], [], []⟩]⟩ : ParticleFilter).resample
      (fun _ => 0)).particles.length = 2 ∧
    ((⟨2, true, [0, 1], [⟨10, 1, 1, 1, 0, [], [], []⟩,
        ⟨11, 2, 2, 2, 1, [], [], []⟩]⟩ : ParticleFilter).resample
      (fun _ => 0)).particles.get? 0 =
      some ⟨Int.ofNat 0, 2, 2, 2, 1, [], [], []⟩ ∧
    selectIndex [0, 1] 0 ≠ 0 := by
  have h := resample_spec
    ⟨2, true, [0, 1], [⟨10, 1, 1, 1, 0, [], [], []⟩,
      ⟨11, 2, 2, 2, 1, [], [], []⟩]⟩ (fun _ => 0)
  have hsel : selectIndex [(0 : ℝ), 1] 0 = 1 := by
    show (if (0 : ℝ) < 0 then 0 else selectIndex [(1 : ℝ)] (0 - 0) + 1) = 1
    rw [if_neg (lt_irrefl (0 : ℝ))]
    show (if (0 : ℝ) - 0 < 1 then 0
      else selectIndex [] ((0 : ℝ) - 0 - 1) + 1) + 1 = 1
    rw [if_pos (by norm_num : (0 : ℝ) - 0 < 1)]
  refine ⟨h.1, ?_, ?_⟩
  · have h2 := h.2.1 0 (by norm_num)
    rw [hsel] at h2
    exact h2
  · refine h.2.2 0 0 ?_ le_rfl ?_ rfl
    · intro w hw
      rcases List.mem_cons.mp hw with rfl | hw'
      · exact le_refl 0
      · rcases List.mem_cons.mp hw' with rfl | hw''
        · exact zero_le_one
        · exact absurd hw'' (List.not_mem_nil w)
    · show (0 : ℝ) < List.sum [0, 1]
      rw [List.sum_cons, List.sum_cons, List.sum_nil]
      norm_num

/-- Claim C2: for every particle processed by `updateWeights`, the new weight
is the product, over all associated (prediction, observation) pairs — each
map-frame observation paired with its nearest in-range prediction, the
association characterized by `dataAssociation_spec` — of the multivariate
Gaussian probability of the pair; and a particle with no in-range landmark
candidate receives weight exactly 0. -/
theorem updateWeights_spec (pf : ParticleFilter) (sensor_range : ℝ)
    (std_landmark : ℝ × ℝ) (observations : List LandmarkObs) (m : Map)
    (i : ℕ) (p q : Particle)
    (hp : pf.particles.get? i = some p)
    (hq : (pf.updateWeights sensor_range std_landmark observations
      m).particles.get? i = some q) :
    (ParticleFilter.findLandmarksInRange p.x p.y sensor_range
        m.landmark_list = [] → q.weight = 0) ∧
    ∀ a as, ParticleFilter.findLandmarksInRange p.x p.y sensor_range
        m.landmark_list = a :: as →
      q.weight = ((ParticleFilter.transform observations p.x p.y
          p.theta).map fun o =>
        ParticleFilter.calculateMultivariateGaussianProbability
          (nearestLandmark a as o) o std_landmark).prod := by
  rw [List.get?_eq_getElem?] at hp hq
  simp only [ParticleFilter.updateWeights] at hq
  rw [List.getElem?_map, hp] at hq
  obtain rfl := Option.some.inj hq
  have hw : (updateParticle sensor_range std_landmark observations
      m.landmark_list p).weight =
    (match ParticleFilter.findLandmarksInRange p.x p.y sensor_range
        m.landmark_list with
      | [] => (0 : ℝ)
      | l :: ls =>
        ((ParticleFilter.transform observations p.x p.y p.theta).map fun o =>
          ParticleFilter.calculateMultivariateGaussianProbability
            (nearestLandmark l ls o) o std_landmark).prod) := rfl
  constructor
  · intro h
    rw [hw, h]
  · intro a as h
    rw [hw, h]

/-- Witness for C2 at a concrete input: a particle at the origin, one
landmark at (3, 0) within range 5, one sensor-local observation at (3, 0):
the new weight is the product of the single pairwise Gaussian probability. -/
theorem updateWeights_spec_witness :
    (updateParticle 5 (1, 1) [⟨-1, 3, 0⟩] [⟨7, 3, 0⟩]
        ⟨0, 0, 0, 0, 1, [], [], []⟩).weight =
      ((ParticleFilter.transform [⟨-1, 3, 0⟩] 0 0 0).map fun o =>
        ParticleFilter.calculateMultivariateGaussianProbability
          (nearestLandmark ⟨7, 3, 0⟩ [] o) o (1, 1)).prod := by
  have hd : distance 0 0 3 0 ≤ 5 := by
    rw [distance, show ((3 : ℝ) - 0) ^ 2 + ((0 : ℝ) - 0) ^ 2 = 3 ^ 2 by
      norm_num, Real.sqrt_sq (by norm_num : (0 : ℝ) ≤ 3)]
    norm_num
  have hin : ParticleFilter.findLandmarksInRange 0 0 5
      [(⟨7, 3, 0⟩ : SingleLandmark)] = [⟨7, 3, 0⟩] := by
    simp [ParticleFilter.findLandmarksInRange, hd]
  have h := updateWeights_spec
    ⟨1, true, [], [⟨0, 0, 0, 0, 1, [], [], []⟩]⟩ 5 (1, 1) [⟨-1, 3, 0⟩]
    ⟨[⟨7, 3, 0⟩]⟩ 0 ⟨0, 0, 0, 0, 1, [], [], []⟩
    (updateParticle 5 (1, 1) [⟨-1, 3, 0⟩] [⟨7, 3, 0⟩]
      ⟨0, 0, 0, 0, 1, [], [], []⟩) rfl rfl
  exact h.2 ⟨7, 3, 0⟩ [] hin
